import Mathlib

/-!
Verification of `causalinference/causal.py` (CausalModel and helpers).

Numeric arrays are embedded as `List ℚ` (the float arithmetic of the source
is modelled by exact rationals); square roots, where the source takes one,
live in `ℝ` via `Real.sqrt`. Boolean-mask indexing is embedded as `List.filter`
with the mask predicate, numpy reductions as list folds.
-/

namespace Causal

/-! ### `CausalModel.stratify` (causal.py lines 569-589)

`stratify` walks adjacent boundary pairs of `self.blocks` and selects each
stratum with the mask `(pscore > blocks[i]) & (pscore <= blocks[i+1])`. -/

/-- The mask `(pscore['fitted'] > lo) & (pscore['fitted'] <= hi)` of
`stratify`, per unit. -/
def inBin (lo hi p : ℚ) : Bool := decide (lo < p) && decide (p ≤ hi)

/-- The adjacent boundary pairs `(blocks[i], blocks[i+1])`,
`i = 0 .. len(blocks)-2`, that `stratify`'s loop runs over. -/
def adjPairs (blocks : List ℚ) : List (ℚ × ℚ) := blocks.zip blocks.tail

/-- The units `stratify` places into stratum `i`: the sub-list of fitted
scores selected by the mask `inBin blocks[i] blocks[i+1]`. -/
def stratumUnits (ps blocks : List ℚ) : List (List ℚ) :=
  (adjPairs blocks).map (fun pr => ps.filter (inBin pr.1 pr.2))

/-- The stratum sizes produced by `stratify`. -/
def stratumSizes (ps blocks : List ℚ) : List ℕ :=
  (stratumUnits ps blocks).map List.length

lemma stratumSizes_eq_countP (ps blocks : List ℚ) :
    stratumSizes ps blocks =
      (adjPairs blocks).map (fun pr => ps.countP (inBin pr.1 pr.2)) := by
  simp [stratumSizes, stratumUnits, List.countP_eq_length_filter]

lemma stratumSizes_sum_cons (p : ℚ) (ps blocks : List ℚ) :
    (stratumSizes (p :: ps) blocks).sum =
      (stratumSizes ps blocks).sum +
        ((adjPairs blocks).countP (fun pr => inBin pr.1 pr.2 p)) := by
  rw [stratumSizes_eq_countP, stratumSizes_eq_countP]
  induction adjPairs blocks with
  | nil => simp
  | cons q qs ih =>
      simp only [List.map_cons, List.sum_cons]
      rw [ih, List.countP_cons, List.countP_cons]
      by_cases h : inBin q.1 q.2 p <;> simp [h] <;> omega

lemma adjPairs_fst_mem {pr : ℚ × ℚ} {blocks : List ℚ}
    (h : pr ∈ adjPairs blocks) : pr.1 ∈ blocks := by
  rcases pr with ⟨a, b⟩
  exact (List.of_mem_zip h).1

/-- A score strictly above the first boundary and at most the last lies in
exactly one adjacent-boundary bin, provided the boundaries are sorted. -/
lemma countP_adjPairs_eq_one (p : ℚ) :
    ∀ (b0 : ℚ) (bs : List ℚ), (b0 :: bs).Sorted (· ≤ ·) → bs ≠ [] →
      b0 < p → p ≤ (b0 :: bs).getLast (by simp) →
      (adjPairs (b0 :: bs)).countP (fun pr => inBin pr.1 pr.2 p) = 1 := by
  intro b0 bs
  induction bs generalizing b0 with
  | nil => intro _ h; exact absurd rfl h
  | cons b1 rest ih =>
      intro hsort _ hlo hhi
      have hpairs : adjPairs (b0 :: b1 :: rest) =
          (b0, b1) :: adjPairs (b1 :: rest) := by
        simp [adjPairs]
      rw [hpairs, List.countP_cons]
      rcases le_or_lt p b1 with hle | hgt
      · -- p falls in the first bin; no later bin can contain it
        have hzero : (adjPairs (b1 :: rest)).countP
            (fun pr => inBin pr.1 pr.2 p) = 0 := by
          rw [List.countP_eq_zero]
          intro pr hpr
          have h1 : b1 ≤ pr.1 := by
            have hm := adjPairs_fst_mem hpr
            rcases List.mem_cons.mp hm with h | h
            · exact le_of_eq h.symm
            · exact (List.sorted_cons.mp (List.sorted_cons.mp hsort).2).1 _ h
          simp only [inBin, Bool.and_eq_true, decide_eq_true_eq, not_and]
          intro hc
          exact absurd (lt_of_le_of_lt (le_trans hle h1) hc) (lt_irrefl p)
        rw [hzero]
        simp [inBin, hlo, hle]
      · -- p lies beyond b1: the first bin misses it; recurse on the tail
        have hfirst : inBin b0 b1 p = false := by
          simp [inBin, not_le.mpr hgt]
        rw [hfirst]
        have hlast : (b0 :: b1 :: rest).getLast (by simp) =
            (b1 :: rest).getLast (by simp) := by
          simp [List.getLast_cons]
        rcases rest with _ | ⟨b2, rest'⟩
        · -- bs = [b1]: then p ≤ b1 contradicts hgt
          exfalso
          have : p ≤ b1 := by simpa using hhi
          exact absurd this (not_le.mpr hgt)
        · have := ih b1 (List.sorted_cons.mp hsort).2 (by simp) hgt
            (by rw [hlast] at hhi; exact hhi)
          simpa using this

/-- C1 (amended): for sorted boundaries whose first element is strictly
below every fitted score and whose last element is at least every fitted
score, `stratify` assigns each unit to exactly one stratum, so the stratum
sizes sum to N. -/
theorem stratify_sizes_sum (ps : List ℚ) (b0 : ℚ) (bs : List ℚ)
    (hsort : (b0 :: bs).Sorted (· ≤ ·)) (hne : bs ≠ [])
    (hlo : ∀ p ∈ ps, b0 < p)
    (hhi : ∀ p ∈ ps, p ≤ (b0 :: bs).getLast (by simp)) :
    (stratumSizes ps (b0 :: bs)).sum = ps.length := by
  induction ps with
  | nil => simp [stratumSizes, stratumUnits]
  | cons p ps ih =>
      rw [stratumSizes_sum_cons]
      have h1 := countP_adjPairs_eq_one p b0 bs hsort hne
        (hlo p (by simp)) (hhi p (by simp))
      have h2 := ih (fun q hq => hlo q (by simp [hq]))
        (fun q hq => hhi q (by simp [hq]))
      simp [h1, h2]

/-- C1 witness input. -/
theorem stratify_sizes_sum_works :
    (stratumSizes [1/4, 1/2, 3/4] [0, 1/2, 1]).sum =
      ([(1 : ℚ)/4, 1/2, 3/4]).length :=
  stratify_sizes_sum [1/4, 1/2, 3/4] 0 [1/2, 1]
    (by norm_num [List.sorted_cons]) (by simp)
    (by intro p hp; fin_cases hp <;> norm_num)
    (by intro p hp; fin_cases hp <;> norm_num [List.getLast])

/-- C1 counterexample: with a single unit of fitted score 1/2 and the
boundary list [1/2, 1] — whose first element equals (hence is at most) the
minimum fitted score and whose last element is at least the maximum — the
unit falls in no stratum, so the sizes sum to 0, not N = 1. -/
theorem stratify_drops_unit_at_first_boundary :
    ((1 : ℚ)/2 ≤ 1/2 ∧ ((1 : ℚ)/2 : ℚ) ≤ 1) ∧
      (stratumSizes [1/2] [1/2, 1]).sum = 0 ∧
      ([(1 : ℚ)/2].length = 1) := by
  refine ⟨⟨le_refl _, by norm_num⟩, ?_, rfl⟩
  simp [stratumSizes, stratumUnits, adjPairs, inBin]

/-! ### `CausalModel.trim`, `_select_cutoff`, `trim_s`
(causal.py lines 513-566)

`_select_cutoff` computes `g = 1/(fitted*(1-fitted))`, sorts it
(`order = np.argsort(g)`), forms `h = g[order].cumsum()/np.square(1..N)`,
and sets `cutoff = 0.5 - np.sqrt(0.25 - 1/g[order[h.argmin()]])`.
`trim` then keeps the units with
`(fitted >= cutoff) & (fitted <= 1-cutoff)`. -/

/-- The minimum of an array (`np.min` / `.min()`); 0 on the empty array,
which numpy rejects. -/
def minList : List ℚ → ℚ
  | [] => 0
  | a :: rest => rest.foldl min a

/-- The maximum of an array (`np.max` / `.max()`); 0 on the empty array. -/
def maxList : List ℚ → ℚ
  | [] => 0
  | a :: rest => rest.foldl max a

lemma foldl_min_mem (a : ℚ) (l : List ℚ) : l.foldl min a ∈ a :: l := by
  induction l generalizing a with
  | nil => simp
  | cons b rest ih =>
      rw [List.foldl_cons]
      rcases List.mem_cons.mp (ih (min a b)) with h | h
      · rw [h]
        rcases min_choice a b with hm | hm <;> rw [hm]
        · exact List.mem_cons_self _ _
        · exact List.mem_cons_of_mem _ (List.mem_cons_self _ _)
      · exact List.mem_cons_of_mem _ (List.mem_cons_of_mem _ h)

lemma foldl_min_le (a : ℚ) (l : List ℚ) : ∀ x ∈ a :: l, l.foldl min a ≤ x := by
  induction l generalizing a with
  | nil =>
      intro x hx
      rw [List.mem_singleton] at hx
      simp [hx]
  | cons b rest ih =>
      intro x hx
      rw [List.foldl_cons]
      have hbase : rest.foldl min (min a b) ≤ min a b :=
        ih (min a b) _ (List.mem_cons_self _ _)
      rcases List.mem_cons.mp hx with hx | hx
      · rw [hx]
        exact le_trans hbase (min_le_left a b)
      rcases List.mem_cons.mp hx with hx | hx
      · rw [hx]
        exact le_trans hbase (min_le_right a b)
      · exact ih (min a b) x (List.mem_cons_of_mem _ hx)

lemma minList_mem {l : List ℚ} (h : l ≠ []) : minList l ∈ l := by
  cases l with
  | nil => exact absurd rfl h
  | cons a rest => exact foldl_min_mem a rest

lemma minList_le {l : List ℚ} : ∀ x ∈ l, minList l ≤ x := by
  cases l with
  | nil => intro x hx; simp at hx
  | cons a rest => exact foldl_min_le a rest

lemma foldl_max_mem (a : ℚ) (l : List ℚ) : l.foldl max a ∈ a :: l := by
  induction l generalizing a with
  | nil => simp
  | cons b rest ih =>
      rw [List.foldl_cons]
      rcases List.mem_cons.mp (ih (max a b)) with h | h
      · rw [h]
        rcases max_choice a b with hm | hm <;> rw [hm]
        · exact List.mem_cons_self _ _
        · exact List.mem_cons_of_mem _ (List.mem_cons_self _ _)
      · exact List.mem_cons_of_mem _ (List.mem_cons_of_mem _ h)

lemma foldl_le_max (a : ℚ) (l : List ℚ) : ∀ x ∈ a :: l, x ≤ l.foldl max a := by
  induction l generalizing a with
  | nil =>
      intro x hx
      rw [List.mem_singleton] at hx
      simp [hx]
  | cons b rest ih =>
      intro x hx
      rw [List.foldl_cons]
      have hbase : max a b ≤ rest.foldl max (max a b) :=
        ih (max a b) _ (List.mem_cons_self _ _)
      rcases List.mem_cons.mp hx with hx | hx
      · rw [hx]
        exact le_trans (le_max_left a b) hbase
      rcases List.mem_cons.mp hx with hx | hx
      · rw [hx]
        exact le_trans (le_max_right a b) hbase
      · exact ih (max a b) x (List.mem_cons_of_mem _ hx)

lemma maxList_mem {l : List ℚ} (h : l ≠ []) : maxList l ∈ l := by
  cases l with
  | nil => exact absurd rfl h
  | cons a rest => exact foldl_max_mem a rest

lemma le_maxList {l : List ℚ} : ∀ x ∈ l, x ≤ maxList l := by
  cases l with
  | nil => intro x hx; simp at hx
  | cons a rest => exact foldl_le_max a rest

/-- `np.argmin`: index of the first occurrence of the minimum. -/
def argmin (l : List ℚ) : ℕ := l.indexOf (minList l)

lemma argmin_lt_length {l : List ℚ} (h : l ≠ []) : argmin l < l.length :=
  List.indexOf_lt_length.mpr (minList_mem h)

lemma getD_argmin {l : List ℚ} (h : l ≠ []) : l.getD (argmin l) 0 = minList l := by
  rw [List.getD_eq_getElem _ _ (argmin_lt_length h)]
  exact List.getElem_indexOf _

lemma getD_argmin_le {l : List ℚ} (h : l ≠ []) :
    ∀ j < l.length, l.getD (argmin l) 0 ≤ l.getD j 0 := by
  intro j hj
  rw [getD_argmin h, List.getD_eq_getElem _ _ hj]
  exact minList_le _ (List.getElem_mem hj)

/-- `g = 1 / (self.pscore['fitted'] * (1-self.pscore['fitted']))`. -/
def gVec (ps : List ℚ) : List ℚ := ps.map (fun p => 1 / (p * (1 - p)))

/-- `g[order]` for `order = np.argsort(g)`: the values of `g` in ascending
order (only the sorted values enter `h` and the selected entry of `g`). -/
def gSorted (ps : List ℚ) : List ℚ := (gVec ps).insertionSort (· ≤ ·)

/-- `g[order].cumsum()`: running sums. -/
def cumsum (l : List ℚ) : List ℚ :=
  (List.range l.length).map (fun i => (l.take (i + 1)).sum)

/-- `h = g[order].cumsum() / np.square(xrange(1, N+1))`. -/
def hVec (ps : List ℚ) : List ℚ :=
  List.zipWith (fun a i => a / (i ^ 2 : ℚ)) (cumsum (gSorted ps))
    ((List.range ps.length).map (fun i : ℕ => ((i : ℚ) + 1)))

/-- `g[order[h.argmin()]]`: the sorted `g` value at the index minimizing
`h`. -/
def gstar (ps : List ℚ) : ℚ := (gSorted ps).getD (argmin (hVec ps)) 0

/-- `self.cutoff = 0.5 - np.sqrt(0.25 - 1/g[order[h.argmin()]])`
(`_select_cutoff`, causal.py line 547). -/
noncomputable def select_cutoff (ps : List ℚ) : ℝ :=
  1/2 - Real.sqrt (1/4 - 1 / (gstar ps : ℝ))

open Classical

/-- `untrimmed = (fitted >= cutoff) & (fitted <= 1-cutoff)`; `trim` keeps
exactly the masked units (causal.py lines 524-526). -/
noncomputable def trim (cutoff : ℝ) (ps : List ℚ) : List ℚ :=
  ps.filter (fun p => decide (cutoff ≤ (p : ℝ) ∧ (p : ℝ) ≤ 1 - cutoff))

lemma length_gSorted (ps : List ℚ) : (gSorted ps).length = ps.length := by
  rw [gSorted, List.length_insertionSort, gVec, List.length_map]

lemma length_cumsum (l : List ℚ) : (cumsum l).length = l.length := by
  rw [cumsum, List.length_map, List.length_range]

lemma length_hVec (ps : List ℚ) : (hVec ps).length = ps.length := by
  rw [hVec, List.length_zipWith, length_cumsum, length_gSorted,
    List.length_map, List.length_range, min_self]

lemma cumsum_getElem (l : List ℚ) (i : ℕ) (hi : i < l.length) :
    (cumsum l).getD i 0 = (l.take (i + 1)).sum := by
  have h : i < (cumsum l).length := by rwa [length_cumsum]
  rw [List.getD_eq_getElem _ _ h]
  simp [cumsum]

lemma hVec_getD (ps : List ℚ) (i : ℕ) (hi : i < ps.length) :
    (hVec ps).getD i 0 = ((gSorted ps).take (i + 1)).sum / ((i + 1 : ℚ) ^ 2) := by
  have h : i < (hVec ps).length := by rwa [length_hVec]
  rw [List.getD_eq_getElem _ _ h]
  have h1 : i < (cumsum (gSorted ps)).length := by
    rw [length_cumsum, length_gSorted]; exact hi
  simp only [hVec, List.getElem_zipWith]
  have := cumsum_getElem (gSorted ps) i (by rwa [length_gSorted])
  rw [List.getD_eq_getElem _ _ h1] at this
  rw [this]
  congr 1
  simp

/-- C2: `trim_s` (i.e. `_select_cutoff` then `trim`) sets
`cutoff = 0.5 - sqrt(0.25 - 1/g*)` where `g*` is the sorted-`g` entry at
the index minimizing `h_i = (sum of the i smallest g)/i^2`, and the trim
keeps a unit strictly inside `[cutoff, 1-cutoff]` and drops every unit
outside. -/
theorem trim_s_spec (ps : List ℚ) (hne : ps ≠ []) :
    (select_cutoff ps =
        1/2 - Real.sqrt (1/4 - 1 / ((gSorted ps).getD (argmin (hVec ps)) 0 : ℝ))) ∧
      (∀ i < ps.length, (hVec ps).getD i 0 =
        ((gSorted ps).take (i + 1)).sum / ((i + 1 : ℚ) ^ 2)) ∧
      (∀ j < ps.length,
        (hVec ps).getD (argmin (hVec ps)) 0 ≤ (hVec ps).getD j 0) ∧
      (∀ p ∈ ps,
        ((select_cutoff ps < (p : ℝ) ∧ (p : ℝ) < 1 - select_cutoff ps) →
          p ∈ trim (select_cutoff ps) ps) ∧
        (((p : ℝ) < select_cutoff ps ∨ 1 - select_cutoff ps < (p : ℝ)) →
          p ∉ trim (select_cutoff ps) ps)) := by
  have hlen : (hVec ps).length = ps.length := length_hVec ps
  have hne' : hVec ps ≠ [] := by
    intro h
    rw [h] at hlen
    exact hne (List.length_eq_zero.mp (by simpa using hlen.symm))
  refine ⟨rfl, ?_, ?_, ?_⟩
  · intro i hi
    exact hVec_getD ps i hi
  · intro j hj
    exact getD_argmin_le hne' j (by rwa [hlen])
  · intro p hp
    constructor
    · intro hin
      simp only [trim, List.mem_filter]
      exact ⟨hp, by simpa using ⟨le_of_lt hin.1, le_of_lt hin.2⟩⟩
    · intro hout hmem
      simp only [trim, List.mem_filter, decide_eq_true_eq] at hmem
      rcases hout with h | h
      · exact absurd hmem.2.1 (not_le.mpr h)
      · exact absurd hmem.2.2 (not_le.mpr h)

/-- On three units with scores 1/5, 1/2, 7/10, the sorted `g` is
`[4, 100/21, 25/4]`, `h = [4, 46/21, 1261/756]`, the argmin is 2, so
`g* = 25/4` and the cutoff is `0.5 - sqrt(0.25 - 4/25) = 0.2`. -/
lemma cutoff_eval : select_cutoff [(1 : ℚ)/5, 1/2, 7/10] = 1/5 := by
  have hg : gVec [(1 : ℚ)/5, 1/2, 7/10] = [25/4, 4, 100/21] := by
    norm_num [gVec]
  have hsort : gSorted [(1 : ℚ)/5, 1/2, 7/10] = [4, 100/21, 25/4] := by
    rw [gSorted, hg]
    norm_num [List.insertionSort, List.orderedInsert]
  have hrange : List.range 3 = [0, 1, 2] := rfl
  have hh : hVec [(1 : ℚ)/5, 1/2, 7/10] = [4, 46/21, 1261/756] := by
    rw [hVec, hsort]
    norm_num [cumsum, hrange]
  have hmin : minList [(4 : ℚ), 46/21, 1261/756] = 1261/756 := by
    norm_num [minList, min_def]
  have hargmin : argmin [(4 : ℚ), 46/21, 1261/756] = 2 := by
    rw [argmin, hmin]
    norm_num [List.indexOf_cons, beq_iff_eq, cond_eq_if]
  have hstar : gstar [(1 : ℚ)/5, 1/2, 7/10] = 25/4 := by
    rw [gstar, hsort, hh, hargmin]
    rfl
  rw [select_cutoff, hstar]
  have hsq : (1 : ℝ)/4 - 1 / (((25 : ℚ)/4 : ℚ) : ℝ) = ((3 : ℝ)/10) ^ 2 := by
    push_cast
    norm_num
  rw [hsq, Real.sqrt_sq (by norm_num : (0 : ℝ) ≤ 3/10)]
  norm_num

/-- C2 witness input: three units with scores 1/5, 1/2, 7/10; the selected
cutoff is 1/5 and the unit with score 1/2 lies strictly inside
`[cutoff, 1-cutoff]`, so trim keeps it. -/
theorem trim_s_spec_works :
    (1 : ℚ)/2 ∈ trim (select_cutoff [(1 : ℚ)/5, 1/2, 7/10])
      [(1 : ℚ)/5, 1/2, 7/10] :=
  (((trim_s_spec [(1 : ℚ)/5, 1/2, 7/10] (by simp)).2.2.2 (1/2)
      (by simp)).1)
    (by rw [cutoff_eval]; constructor <;> norm_num)

/-! ### `CausalModel._msmallest_with_ties` (causal.py lines 704-730)

`np.argpartition(x, m)` puts the `(m+1)`-th order statistic at position `m`,
smaller-or-equal values before it and greater-or-equal values after it, and
raises a `kth out of bounds` error unless `m < len(x)`.  The three branch
conditions of `_msmallest_with_ties` compare `x[par_indx[:m]].max()`,
`x[par_indx[m]]` and `x[par_indx[m+1:]].min()`, i.e. the order statistics at
sorted positions `m-1`, `m` and `m+1`, so the recursion is embedded over
`s`, the ascending order statistics of `x`.  The result is the number of
indices returned (`m` or `m+1`); `none` models a run-time error: an
out-of-range `kth` in `np.argpartition`, a `.max()` on the empty slice
`par_indx[:0]`, or a `.min()` on the empty slice `par_indx[m+1:]`. -/

def msmallestCount (s : List ℚ) (m : ℕ) : Option ℕ :=
  if _h1 : m < s.length then
    if 1 ≤ m then
      if s.getD (m - 1) 0 < s.getD m 0 then some m
      else if h2 : m + 1 < s.length then
        if s.getD m 0 < s.getD (m + 1) 0 then some (m + 1)
        else msmallestCount s (m + 2)
      else none
    else none
  else none
termination_by s.length - m
decreasing_by omega

/-- C3: the claim that `_msmallest_with_ties(x, m)` terminates normally and
never passes an out-of-range count to the partition, for every `x` and
`1 ≤ m < len(x)`, fails on the code: with `x = [1,1,1]` and `m = 1` the
three-way tie makes the recursion call itself with `m+2 = 3 = len(x)`, and
`np.argpartition(x, 3)` raises `kth out of bounds`.  (With `x = [1,1]`,
`m = 1`, the slice `x[par_indx[2:]]` is empty and `.min()` raises.) -/
theorem msmallest_with_ties_crashes_on_ties :
    msmallestCount [1, 1, 1] 1 = none ∧ msmallestCount [1, 1] 1 = none := by
  constructor
  · rw [msmallestCount]
    norm_num
    rw [msmallestCount]
    norm_num
  · rw [msmallestCount]
    norm_num

/-! ### `CausalModel.stratify_s`: the vector fed to the balance t-test
(causal.py line 660)

`stratify_s` computes `l = np.log(self.pscore['fitted'] /
(1+self.pscore['fitted']))` and hands it to `_select_blocks`, whose
docstring calls it the "vector of log odds ratio". -/

/-- The per-unit value the code computes:
`np.log(fitted / (1 + fitted))`. -/
noncomputable def logOddsCode (p : ℚ) : ℝ := Real.log ((p : ℝ) / (1 + (p : ℝ)))

/-- The vector `l` of `stratify_s`. -/
noncomputable def lVec (ps : List ℚ) : List ℝ := ps.map logOddsCode

/-- Modelled from the spec (and from the code's own docstring "vector of
log odds ratio"): the log-odds of a fitted score `p` is `log(p/(1-p))`. -/
noncomputable def logOddsSpec (p : ℚ) : ℝ := Real.log ((p : ℝ) / (1 - (p : ℝ)))

/-- C4: the code does not feed the t-test the log-odds `log(p/(1-p))`: at
fitted score `p = 1/2` the log-odds is `log 1 = 0`, but `stratify_s`
computes `log(p/(1+p)) = log(1/3) < 0`.  The code contradicts its own
docstring ("vector of log odds ratio"). -/
theorem stratify_s_log_odds_bug :
    lVec [(1 : ℚ)/2] = [Real.log ((1 : ℝ)/3)] ∧
      logOddsSpec ((1 : ℚ)/2) = 0 ∧
      Real.log ((1 : ℝ)/3) ≠ 0 := by
  refine ⟨?_, ?_, ?_⟩
  · simp only [lVec, List.map_cons, List.map_nil, logOddsCode]
    norm_num
  · simp only [logOddsSpec]
    norm_num
  · exact ne_of_lt (Real.log_neg (by norm_num) (by norm_num))

/-! ### `CausalModel._select_terms` (causal.py lines 398-446)

Each candidate's score is `lr[i] = 2*(loglike(with candidate i) - ll_null)`
where the log-likelihoods come from `_compute_pscore(_form_matrix(...))`:
`ll_null = loglike(cur, [])` and `lr[i] = 2*(loglike(cur+[pot[i]], []) -
ll_null)` while linear terms are being chosen (`lin = []`), and
`ll_null = loglike(lin, cur)`, `lr[i] = 2*(loglike(lin, cur+[pot[i]]) -
ll_null)` once `lin` is fixed.  Both modes are instances of one abstract
maximized-log-likelihood function `f` of the accepted candidate list, so the
selection recursion is embedded parametrically in `f`. -/

/-- `np.argmax`: index of the first occurrence of the maximum. -/
def argmax (l : List ℚ) : ℕ := l.indexOf (maxList l)

lemma argmax_lt_length {l : List ℚ} (h : l ≠ []) : argmax l < l.length :=
  List.indexOf_lt_length.mpr (maxList_mem h)

lemma getD_argmax {l : List ℚ} (h : l ≠ []) :
    l.getD (argmax l) 0 = maxList l := by
  rw [List.getD_eq_getElem _ _ (argmax_lt_length h)]
  exact List.getElem_indexOf _

lemma getD_le_getD_argmax {l : List ℚ} (h : l ≠ []) :
    ∀ j < l.length, l.getD j 0 ≤ l.getD (argmax l) 0 := by
  intro j hj
  rw [getD_argmax h, List.getD_eq_getElem _ _ hj]
  exact le_maxList _ (List.getElem_mem hj)

/-- The vector `lr` of twice-log-likelihood gains of
`_select_terms` over the null fit `f cur`. -/
def lrVec {α : Type} (f : List α → ℚ) (cur pot : List α) : List ℚ :=
  pot.map (fun t => 2 * (f (cur ++ [t]) - f cur))

lemma lrVec_length {α : Type} (f : List α → ℚ) (cur pot : List α) :
    (lrVec f cur pot).length = pot.length := List.length_map _ _

lemma lrVec_ne_nil {α : Type} (f : List α → ℚ) (cur : List α) {pot : List α}
    (h : pot ≠ []) : lrVec f cur pot ≠ [] := by
  intro hc
  exact h (List.map_eq_nil_iff.mp hc)

/-- `_select_terms(cur, pot, crit)` parametric in the maximized
log-likelihood `f` of the accepted list: if `pot` is empty return `cur`;
otherwise score every candidate, take `argmax = np.argmax(lr)`; if
`lr[argmax] < crit` return `cur`, else pop the winner and recurse on
`cur + [winner]`. -/
def select_terms {α : Type} [Inhabited α] [DecidableEq α]
    (f : List α → ℚ) (cur pot : List α)
    (crit : ℚ) : List α :=
  if hpot : pot = [] then cur
  else if (lrVec f cur pot).getD (argmax (lrVec f cur pot)) 0 < crit then cur
  else
    select_terms f (cur ++ [pot.getD (argmax (lrVec f cur pot)) default])
      (pot.eraseIdx (argmax (lrVec f cur pot))) crit
termination_by pot.length
decreasing_by
  have h1 : argmax (lrVec f cur pot) < pot.length := by
    rw [← lrVec_length f cur pot]
    exact argmax_lt_length (lrVec_ne_nil f cur hpot)
  rw [List.length_eraseIdx]
  simp only [h1, if_true]
  omega

/-- C6 (amended): in each round of `_select_terms` with a non-empty pool,
the winning candidate's gain is the maximum gain; the search accepts it and
recurses if and only if that gain is at least (`≥`) the critical value, and
otherwise returns the accepted set `cur` unchanged. -/
theorem select_terms_round {α : Type} [Inhabited α] [DecidableEq α]
    (f : List α → ℚ)
    (cur pot : List α) (crit : ℚ) (hpot : pot ≠ []) :
    (∀ j < pot.length, (lrVec f cur pot).getD j 0 ≤
        (lrVec f cur pot).getD (argmax (lrVec f cur pot)) 0) ∧
      (crit ≤ (lrVec f cur pot).getD (argmax (lrVec f cur pot)) 0 →
        select_terms f cur pot crit =
          select_terms f
            (cur ++ [pot.getD (argmax (lrVec f cur pot)) default])
            (pot.eraseIdx (argmax (lrVec f cur pot))) crit) ∧
      ((lrVec f cur pot).getD (argmax (lrVec f cur pot)) 0 < crit →
        select_terms f cur pot crit = cur) := by
  refine ⟨?_, ?_, ?_⟩
  · intro j hj
    exact getD_le_getD_argmax (lrVec_ne_nil f cur hpot) j
      (by rwa [lrVec_length])
  · intro hge
    conv_lhs => rw [select_terms]
    rw [dif_neg hpot, if_neg (not_lt.mpr hge)]
  · intro hlt
    conv_lhs => rw [select_terms]
    rw [dif_neg hpot, if_pos hlt]

/-- C6 witness input: `f` counts accepted terms, `pot = [0]`, `crit = 1`:
the single candidate's gain 2 is the maximum gain, it is at least the
critical value, and the round accepts it and recurses. -/
theorem select_terms_round_works :
    (lrVec (fun l : List ℕ => (l.length : ℚ)) [] [0]).getD 0 0 ≤
      (lrVec (fun l : List ℕ => (l.length : ℚ)) [] [0]).getD
        (argmax (lrVec (fun l : List ℕ => (l.length : ℚ)) [] [0])) 0 ∧
    select_terms (fun l : List ℕ => (l.length : ℚ)) [] [0] 1 =
      select_terms (fun l : List ℕ => (l.length : ℚ))
        ([] ++ [([0] : List ℕ).getD
          (argmax (lrVec (fun l : List ℕ => (l.length : ℚ)) [] [0])) default])
        (([0] : List ℕ).eraseIdx
          (argmax (lrVec (fun l : List ℕ => (l.length : ℚ)) [] [0]))) 1 := by
  have h := select_terms_round (fun l : List ℕ => (l.length : ℚ)) [] [0] 1
    (by simp)
  refine ⟨h.1 0 (by norm_num), h.2.1 ?_⟩
  have hlr : lrVec (fun l : List ℕ => (l.length : ℚ)) [] [0] = [2] := by
    simp [lrVec]
  have ham : argmax ([2] : List ℚ) = 0 := by
    rw [argmax]
    rfl
  rw [hlr, ham]
  norm_num

/-- C6 counterexample: when the maximum gain equals the critical value
exactly, the code accepts the candidate (the guard is `lr[argmax] < crit`),
whereas the claim says it recurses only when the gain strictly exceeds the
critical value.  Here `f [] = 0`, `f [0] = 1`, so the gain is `2 = crit`,
yet the result is `[0]`, not the unchanged `cur = []`. -/
theorem select_terms_accepts_gain_equal_to_crit :
    lrVec (fun l : List ℕ => if l = [] then (0 : ℚ) else 1) [] [0] = [2] ∧
      select_terms (fun l : List ℕ => if l = [] then (0 : ℚ) else 1) [] [0] 2
        = [0] := by
  have hlr : lrVec (fun l : List ℕ => if l = [] then (0 : ℚ) else 1) [] [0]
      = [2] := by
    simp [lrVec]
  have ham : argmax ([2] : List ℚ) = 0 := by
    rw [argmax]
    rfl
  refine ⟨hlr, ?_⟩
  conv_lhs => rw [select_terms]
  rw [dif_neg (by simp : ¬([0] : List ℕ) = []), hlr, ham]
  rw [if_neg (by simp : ¬(([2] : List ℚ).getD 0 0 < 2))]
  show select_terms (fun l : List ℕ => if l = [] then (0 : ℚ) else 1)
    [0] [] 2 = [0]
  rw [select_terms]
  simp

/-! ### `Basic.__init__` (causal.py lines 11-18)

`__init__` stores the arrays and immediately evaluates `Y[D==1]`,
`Y[D==0]`, `X[D==1]`, `X[D==0]`.  Numpy boolean-mask indexing raises
`IndexError: boolean index did not match indexed array` when the mask
length differs from the array's leading dimension, so construction fails
exactly when the unit counts disagree. -/

/-- Numpy boolean-mask indexing `arr[mask]`: `none` models the
`IndexError` raised when the mask length differs from the array length. -/
def maskSelect {β : Type} (arr : List β) (mask : List Bool) : Option (List β) :=
  if arr.length = mask.length then
    some ((arr.zip mask).filterMap (fun pr => if pr.2 then some pr.1 else none))
  else none

/-- The data `Basic.__init__` derives: the arrays, the treated/control
splits, and the counts `N`, `K`, `N_t`, `N_c`. -/
structure BasicData where
  Y : List ℚ
  D : List Bool
  X : List (List ℚ)
  Y_t : List ℚ
  Y_c : List ℚ
  X_t : List (List ℚ)
  X_c : List (List ℚ)
  N : ℕ
  K : ℕ
  N_t : ℕ
  N_c : ℕ

/-- `Basic.__init__(Y, D, X)`: `N, K = X.shape`; `Y_t, Y_c = Y[D==1],
Y[D==0]`; `X_t, X_c = X[D==1], X[D==0]`; `N_t = D.sum()`;
`N_c = N - N_t`.  `none` models the `IndexError` from a mismatched
boolean mask. -/
def basicInit (Y : List ℚ) (D : List Bool) (X : List (List ℚ)) :
    Option BasicData := do
  let Y_t ← maskSelect Y D
  let Y_c ← maskSelect Y (D.map not)
  let X_t ← maskSelect X D
  let X_c ← maskSelect X (D.map not)
  some ⟨Y, D, X, Y_t, Y_c, X_t, X_c, X.length, (X.headD []).length,
    D.countP (fun d => d), X.length - D.countP (fun d => d)⟩

/-- C8: construction succeeds exactly when the unit counts of the outcome
vector, the treatment vector and the covariate matrix agree; any
disagreement makes `__init__` raise at construction time. -/
theorem construct_shape_check (Y : List ℚ) (D : List Bool)
    (X : List (List ℚ)) :
    (basicInit Y D X).isSome ↔
      (Y.length = D.length ∧ X.length = D.length) := by
  constructor
  · intro h
    by_cases h1 : Y.length = D.length
    · by_cases h2 : X.length = D.length
      · exact ⟨h1, h2⟩
      · exfalso
        simp [basicInit, maskSelect, h1, h2, Option.bind] at h
    · exfalso
      simp [basicInit, maskSelect, h1, Option.bind] at h
  · rintro ⟨h1, h2⟩
    simp [basicInit, maskSelect, h1, h2, Option.bind]

/-! ### `CausalModel.matching` (causal.py lines 799-849)

After `_make_matches` produces, for each treated unit (in `D`-order), the
index list `m_indx_t[i]` of its matched controls, and for each control
unit `m_indx_c[i]` of its matched treated units, the code sets
`ITT[D==1] = Y_t - [Y_c[m_indx_t[i]].mean() ...]`,
`ITT[D==0] = [Y_t[m_indx_c[i]].mean() ...] - Y_c`, and finally
`ATE = ITT.mean()`, `ATT = ITT[D==1].mean()`, `ATC = ITT[D==0].mean()`.
The match-index lists are taken as parameters here; the claim constrains
only the effect construction and aggregation. -/

/-- `np.mean` of a vector (0 on the empty vector, where numpy gives NaN). -/
def meanQ (l : List ℚ) : ℚ := l.sum / l.length

/-- Boolean-mask selection `arr[D == b]` for equal-length arrays. -/
def sel {β : Type} : List β → List Bool → Bool → List β
  | [], _, _ => []
  | _, [], _ => []
  | y :: Y', d :: D', b => if d = b then y :: sel Y' D' b else sel Y' D' b

/-- The scatter `ITT = np.empty(N); ITT[D==1] = ts; ITT[D==0] = cs`:
true positions receive `ts` in order, false positions `cs` in order. -/
def scatter : List Bool → List ℚ → List ℚ → List ℚ
  | [], _, _ => []
  | true :: D', t :: ts, cs => t :: scatter D' ts cs
  | true :: D', [], _ => []
  | false :: D', ts, c :: cs => c :: scatter D' ts cs
  | false :: D', _, [] => []

/-- `Y_m[m_indx[i]].mean()`: mean outcome of the matched units. -/
def matchedMean (Ym : List ℚ) (idx : List ℕ) : ℚ :=
  meanQ (idx.map (fun j => Ym.getD j 0))

/-- The `ITT` vector of `matching` (causal.py lines 839-841). -/
def matchingITT (Y : List ℚ) (D : List Bool)
    (m_indx_t m_indx_c : List (List ℕ)) : List ℚ :=
  scatter D
    (List.zipWith (fun y idx => y - matchedMean (sel Y D false) idx)
      (sel Y D true) m_indx_t)
    (List.zipWith (fun y idx => matchedMean (sel Y D true) idx - y)
      (sel Y D false) m_indx_c)

/-- `self.ATE = self.ITT.mean()`. -/
def matchingATE (Y : List ℚ) (D : List Bool)
    (m_indx_t m_indx_c : List (List ℕ)) : ℚ :=
  meanQ (matchingITT Y D m_indx_t m_indx_c)

/-- `self.ATT = self.ITT[self.D==1].mean()`. -/
def matchingATT (Y : List ℚ) (D : List Bool)
    (m_indx_t m_indx_c : List (List ℕ)) : ℚ :=
  meanQ (sel (matchingITT Y D m_indx_t m_indx_c) D true)

/-- `self.ATC = self.ITT[self.D==0].mean()`. -/
def matchingATC (Y : List ℚ) (D : List Bool)
    (m_indx_t m_indx_c : List (List ℕ)) : ℚ :=
  meanQ (sel (matchingITT Y D m_indx_t m_indx_c) D false)

lemma length_sel_add {β : Type} (Y : List β) (D : List Bool)
    (h : Y.length = D.length) :
    (sel Y D true).length = D.countP (fun d => d) ∧
      (sel Y D false).length = D.countP (fun d => !d) := by
  induction D generalizing Y with
  | nil => cases Y <;> simp [sel]
  | cons d D' ih =>
      cases Y with
      | nil => simp at h
      | cons y Y' =>
          have h' : Y'.length = D'.length := by simpa using h
          obtain ⟨iht, ihf⟩ := ih Y' h'
          cases d <;>
            simp [sel, List.countP_cons, iht, ihf]

/-- Reading back the true positions of a scatter returns the scattered
values, provided the lengths fit the mask. -/
lemma sel_scatter (D : List Bool) (ts cs : List ℚ)
    (hts : ts.length = D.countP (fun d => d))
    (hcs : cs.length = D.countP (fun d => !d)) :
    sel (scatter D ts cs) D true = ts ∧
      sel (scatter D ts cs) D false = cs := by
  induction D generalizing ts cs with
  | nil =>
      simp at hts hcs
      subst hts
      subst hcs
      simp [scatter, sel]
  | cons d D' ih =>
      cases d with
      | true =>
          cases ts with
          | nil => simp [List.countP_cons] at hts
          | cons t ts' =>
              have h1 : ts'.length = D'.countP (fun d => d) := by
                simpa [List.countP_cons] using hts
              have h2 : cs.length = D'.countP (fun d => !d) := by
                simpa [List.countP_cons] using hcs
              obtain ⟨iht, ihf⟩ := ih ts' cs h1 h2
              simp [scatter, sel, iht, ihf]
      | false =>
          cases cs with
          | nil => simp [List.countP_cons] at hcs
          | cons c cs' =>
              have h1 : ts.length = D'.countP (fun d => d) := by
                simpa [List.countP_cons] using hts
              have h2 : cs'.length = D'.countP (fun d => !d) := by
                simpa [List.countP_cons] using hcs
              obtain ⟨iht, ihf⟩ := ih ts cs' h1 h2
              simp [scatter, sel, iht, ihf]

/-- C7: each treated unit's individual effect is its outcome minus the
mean outcome of its matched units, each control unit's is the mean outcome
of its matched units minus its own outcome, and ATE, ATT, ATC are the
means of the individual effects over all units, the treated, and the
controls respectively. -/
theorem matching_effects (Y : List ℚ) (D : List Bool)
    (m_indx_t m_indx_c : List (List ℕ))
    (hY : Y.length = D.length)
    (hmt : m_indx_t.length = D.countP (fun d => d))
    (hmc : m_indx_c.length = D.countP (fun d => !d)) :
    sel (matchingITT Y D m_indx_t m_indx_c) D true =
      List.zipWith (fun y idx => y - matchedMean (sel Y D false) idx)
        (sel Y D true) m_indx_t ∧
    sel (matchingITT Y D m_indx_t m_indx_c) D false =
      List.zipWith (fun y idx => matchedMean (sel Y D true) idx - y)
        (sel Y D false) m_indx_c ∧
    matchingATE Y D m_indx_t m_indx_c =
      meanQ (matchingITT Y D m_indx_t m_indx_c) ∧
    matchingATT Y D m_indx_t m_indx_c =
      meanQ (sel (matchingITT Y D m_indx_t m_indx_c) D true) ∧
    matchingATC Y D m_indx_t m_indx_c =
      meanQ (sel (matchingITT Y D m_indx_t m_indx_c) D false) := by
  obtain ⟨hst, hsf⟩ := length_sel_add Y D hY
  have hts : (List.zipWith (fun y idx => y - matchedMean (sel Y D false) idx)
      (sel Y D true) m_indx_t).length = D.countP (fun d => d) := by
    rw [List.length_zipWith, hst, hmt, min_self]
  have hcs : (List.zipWith (fun y idx => matchedMean (sel Y D true) idx - y)
      (sel Y D false) m_indx_c).length = D.countP (fun d => !d) := by
    rw [List.length_zipWith, hsf, hmc, min_self]
  obtain ⟨h1, h2⟩ := sel_scatter D _ _ hts hcs
  exact ⟨h1, h2, rfl, rfl, rfl⟩

/-- C7 witness input: `Y = [10, 3, 5]`, `D = [true, false, true]`, the
treated units matched to the single control and the control matched to
both treated units. -/
theorem matching_effects_works :
    sel (matchingITT [10, 3, 5] [true, false, true] [[0], [0]] [[0, 1]])
        [true, false, true] true =
      List.zipWith
        (fun y idx =>
          y - matchedMean (sel [10, 3, 5] [true, false, true] false) idx)
        (sel [10, 3, 5] [true, false, true] true) [[0], [0]] ∧
    sel (matchingITT [10, 3, 5] [true, false, true] [[0], [0]] [[0, 1]])
        [true, false, true] false =
      List.zipWith
        (fun y idx =>
          matchedMean (sel [10, 3, 5] [true, false, true] true) idx - y)
        (sel [10, 3, 5] [true, false, true] false) [[0, 1]] ∧
    matchingATE [10, 3, 5] [true, false, true] [[0], [0]] [[0, 1]] =
      meanQ (matchingITT [10, 3, 5] [true, false, true] [[0], [0]] [[0, 1]]) ∧
    matchingATT [10, 3, 5] [true, false, true] [[0], [0]] [[0, 1]] =
      meanQ (sel (matchingITT [10, 3, 5] [true, false, true] [[0], [0]] [[0, 1]])
        [true, false, true] true) ∧
    matchingATC [10, 3, 5] [true, false, true] [[0], [0]] [[0, 1]] =
      meanQ (sel (matchingITT [10, 3, 5] [true, false, true] [[0], [0]] [[0, 1]])
        [true, false, true] false) :=
  matching_effects [10, 3, 5] [true, false, true] [[0], [0]] [[0, 1]]
    (by simp) (by simp) (by simp)

/-! ### `CausalModel._change_base`, `_form_matrix`, `propensity`
(causal.py lines 287-350, 386-395, 479)

`propensity(lin, qua)` and `propensity_s(lin_B, ...)` convert user-supplied
column numbers with `_change_base(l, base=0)`, which adds
`offset = 2*0 - 1 = -1`, before passing them to `_form_matrix`. -/

/-- `_change_base(l, pair=False, base)`: add `offset = 2*base - 1` to each
entry. -/
def changeBase (l : List ℤ) (base : ℤ) : List ℤ :=
  l.map (fun e => e + (2 * base - 1))

/-- `_change_base(l, pair=True, base)`: add the offset to both components
of each pair. -/
def changeBasePair (l : List (ℤ × ℤ)) (base : ℤ) : List (ℤ × ℤ) :=
  l.map (fun p => (p.1 + (2 * base - 1), p.2 + (2 * base - 1)))

/-- `_form_matrix(lin, qua)`: a constant column, the selected linear
columns `X[:, lin]`, then one product column `X[:, i] * X[:, j]` per pair
in `qua`. -/
def form_matrix (X : List (List ℚ)) (lin : List ℕ) (qua : List (ℕ × ℕ)) :
    List (List ℚ) :=
  X.map (fun row => 1 ::
    (lin.map (fun j => row.getD j 0) ++
     qua.map (fun t => row.getD t.1 0 * row.getD t.2 0)))

/-- The design matrix `propensity` builds from an explicit column list:
`lin = self._change_base(lin, base=0)`,
`qua = self._change_base(qua, pair=True, base=0)`, then
`_form_matrix(lin, qua)`.  (A negative index after the base change would
index from the end in numpy; the claim concerns one-based input, where
`Int.toNat` is exact.) -/
def propensityMatrix (X : List (List ℚ)) (lin : List ℤ)
    (qua : List (ℤ × ℤ)) : List (List ℚ) :=
  form_matrix X ((changeBase lin 0).map Int.toNat)
    ((changeBasePair qua 0).map (fun p => (p.1.toNat, p.2.toNat)))

/-- C10: explicit column numbers handed to `propensity`/`propensity_s` are
one-based: listed number `i` selects column `i - 1` of the covariate
matrix, and a pair `(i, j)` the product of columns `i - 1` and `j - 1`, so
`lin = [1]` selects the first covariate column. -/
theorem propensity_indices_one_based (X : List (List ℚ)) (lin : List ℤ)
    (qua : List (ℤ × ℤ)) (hlin : ∀ i ∈ lin, 1 ≤ i)
    (hqua : ∀ t ∈ qua, 1 ≤ t.1 ∧ 1 ≤ t.2) :
    propensityMatrix X lin qua =
      X.map (fun row => 1 ::
        (lin.map (fun i => row.getD (i.toNat - 1) 0) ++
         qua.map (fun t =>
           row.getD (t.1.toNat - 1) 0 * row.getD (t.2.toNat - 1) 0))) := by
  have h1 : (changeBase lin 0).map Int.toNat =
      lin.map (fun i => i.toNat - 1) := by
    rw [changeBase, List.map_map]
    refine List.map_congr_left ?_
    intro i hi
    have := hlin i hi
    simp only [Function.comp_apply]
    omega
  have h2 : (changeBasePair qua 0).map (fun p => (p.1.toNat, p.2.toNat)) =
      qua.map (fun t => (t.1.toNat - 1, t.2.toNat - 1)) := by
    rw [changeBasePair, List.map_map]
    refine List.map_congr_left ?_
    intro t ht
    obtain ⟨ha, hb⟩ := hqua t ht
    simp only [Function.comp_apply, Prod.mk.injEq]
    exact ⟨by omega, by omega⟩
  rw [propensityMatrix, h1, h2, form_matrix]
  refine List.map_congr_left ?_
  intro row _
  rw [List.map_map, List.map_map]
  rfl

/-- C10 witness input: a one-row covariate matrix `[[10, 20]]` with
`lin = [1]` and `qua = [(1, 2)]`, i.e. the first column and the product of
the first two columns. -/
theorem propensity_indices_one_based_works :
    propensityMatrix [[10, 20]] [1] [(1, 2)] =
      [[10, 20]].map (fun row => 1 ::
        (([1] : List ℤ).map (fun i => row.getD (i.toNat - 1) 0) ++
         ([((1 : ℤ), (2 : ℤ))]).map (fun t =>
           row.getD (t.1.toNat - 1) 0 * row.getD (t.2.toNat - 1) 0))) :=
  propensity_indices_one_based [[10, 20]] [1] [(1, 2)]
    (by decide) (by decide)

/-! ### `CausalModel` cached attributes across `trim`
(causal.py lines 140-147, 513-527)

`Xvar` is a lazily cached property (`self._Xvar = self.X.var(0)` on first
read), `ndiff` likewise caches `_ndiff`, `stratify` stores `self.strata`,
and `ols` stores the design-matrix factors `self._Z`, `self._R`.  `trim`
replaces the sample arrays and the fitted score and then deletes only
`_ndiff` (`self._try_del('_ndiff')`). -/

/-- Boolean-mask selection, polymorphic (`arr[mask]` for an equal-length
mask). -/
def selMask {β : Type} : List β → List Bool → List β
  | [], _ => []
  | _, [] => []
  | x :: xs, b :: bs => if b then x :: selMask xs bs else selMask xs bs

/-- Population variance of one column (`np.var`). -/
def colVar (col : List ℚ) : ℚ := meanQ (col.map (fun x => x ^ 2)) - (meanQ col) ^ 2

/-- `self.X.var(0)`: per-column population variance. -/
def XvarOf (X : List (List ℚ)) : List ℚ :=
  (List.range (X.headD []).length).map
    (fun j => colVar (X.map (fun row => row.getD j 0)))

/-- The mutable attributes of a `CausalModel` that `trim` touches or
should touch: the sample, the fitted score, the cutoff, and the four
derived caches (`_ndiff`, `_Xvar`, `strata`, the `_Z`/`_R` design
factors). -/
structure ModelState where
  Y : List ℚ
  D : List Bool
  X : List (List ℚ)
  pscore : List ℚ
  cutoff : ℚ
  ndiffCache : Option (List ℚ)
  XvarCache : Option (List ℚ)
  strata : Option (List ℕ)
  ZCache : Option (List (List ℚ))

/-- The `Xvar` property read (causal.py lines 140-147): return `_Xvar`
if cached, else compute `self.X.var(0)` and store it. -/
def XvarRead (st : ModelState) : List ℚ × ModelState :=
  match st.XvarCache with
  | some v => (v, st)
  | none => (XvarOf st.X, { st with XvarCache := some (XvarOf st.X) })

/-- `trim` (causal.py lines 513-527) as a state transition: compute the
mask `(fitted >= cutoff) & (fitted <= 1-cutoff)`, replace `Y`, `D`, `X`
and the fitted score by their masked versions, and delete only the
`_ndiff` cache; `_Xvar`, `strata` and the `_Z`/`_R` factors are left as
they are. -/
def trimStep (st : ModelState) : ModelState :=
  { Y := selMask st.Y (st.pscore.map
      (fun p => decide (st.cutoff ≤ p) && decide (p ≤ 1 - st.cutoff))),
    D := selMask st.D (st.pscore.map
      (fun p => decide (st.cutoff ≤ p) && decide (p ≤ 1 - st.cutoff))),
    X := selMask st.X (st.pscore.map
      (fun p => decide (st.cutoff ≤ p) && decide (p ≤ 1 - st.cutoff))),
    pscore := selMask st.pscore (st.pscore.map
      (fun p => decide (st.cutoff ≤ p) && decide (p ≤ 1 - st.cutoff))),
    cutoff := st.cutoff,
    ndiffCache := none,
    XvarCache := st.XvarCache,
    strata := st.strata,
    ZCache := st.ZCache }

/-- C9 fails on the code: `trim` deletes only `_ndiff`.  With a cached
covariate variance (Xvar read before trimming), strata and design factors
present, trimming the unit with fitted score 1/20 under cutoff 1/10
replaces the sample `[[0],[1],[2],[10]]` by `[[0],[1],[2]]`, yet a
subsequent `Xvar` read returns the stale pre-trim variance 251/16 instead
of 2/3, and the stale strata and design-factor caches survive. -/
lemma range_one_eval : List.range 1 = [0] := rfl

theorem trim_leaves_stale_caches :
    (XvarRead (trimStep (XvarRead
        ⟨[0, 0, 0, 0], [true, false, true, false], [[0], [1], [2], [10]],
          [1/5, 1/2, 1/2, 1/20], 1/10, none, none,
          some [2, 2], some [[1]]⟩).2)).1 = [251/16] ∧
    XvarOf (trimStep (XvarRead
        ⟨[0, 0, 0, 0], [true, false, true, false], [[0], [1], [2], [10]],
          [1/5, 1/2, 1/2, 1/20], 1/10, none, none,
          some [2, 2], some [[1]]⟩).2).X = [2/3] ∧
    ((251 : ℚ)/16 ≠ 2/3) ∧
    (trimStep (XvarRead
        ⟨[0, 0, 0, 0], [true, false, true, false], [[0], [1], [2], [10]],
          [1/5, 1/2, 1/2, 1/20], 1/10, none, none,
          some [2, 2], some [[1]]⟩).2).ndiffCache = none ∧
    (trimStep (XvarRead
        ⟨[0, 0, 0, 0], [true, false, true, false], [[0], [1], [2], [10]],
          [1/5, 1/2, 1/2, 1/20], 1/10, none, none,
          some [2, 2], some [[1]]⟩).2).strata = some [2, 2] ∧
    (trimStep (XvarRead
        ⟨[0, 0, 0, 0], [true, false, true, false], [[0], [1], [2], [10]],
          [1/5, 1/2, 1/2, 1/20], 1/10, none, none,
          some [2, 2], some [[1]]⟩).2).ZCache = some [[1]] ∧
    (trimStep (XvarRead
        ⟨[0, 0, 0, 0], [true, false, true, false], [[0], [1], [2], [10]],
          [1/5, 1/2, 1/2, 1/20], 1/10, none, none,
          some [2, 2], some [[1]]⟩).2).X = [[0], [1], [2]] := by
  refine ⟨?_, ?_, by norm_num, ?_, ?_, ?_, ?_⟩ <;>
    norm_num [XvarRead, trimStep, selMask, XvarOf, colVar, meanQ,
      range_one_eval]

/-! ### `CausalModel._select_blocks` (causal.py lines 592-644)

A unit row carries `(e, l, d)`: the fitted score entry, the entry of the
vector `l` handed over by `stratify_s`, and the treatment indicator.
`_select_blocks(e, l, e_min, e_max)` restricts to
`scope = (e >= e_min) & (e <= e_max)`, computes the two-sample t-statistic
of `l` between the scoped treated and control units, stops with
`[e_min, e_max]` when `t_stat <= 1.96`, otherwise splits at
`med = e[e <= np.median(e[scope])].max()` into `left = (e <= med) & scope`
and `right = (e > med) & scope`, stops if
`min(N_left, N_right) <= K+2` or any treated/control-by-left/right cell
count is `<= 3`, and otherwise recurses on `[e[left].min(), med]` and
`[med, e[right].max()]`, concatenating the results.  Recursion depth is
modelled by fuel (`none` = fuel exhausted; the returned boundary lists are
unaffected). -/

abbrev UnitRow : Type := ℚ × ℚ × Bool

/-- `scope = (e >= e_min) & (e <= e_max)` applied to the unit rows. -/
def scopedOf (units : List UnitRow) (a b : ℚ) : List UnitRow :=
  units.filter (fun u => decide (a ≤ u.1) && decide (u.1 ≤ b))

/-- `l[t]`: the `l` entries of the scoped treated units. -/
def ltVals (units : List UnitRow) (a b : ℚ) : List ℚ :=
  ((scopedOf units a b).filter (fun u => u.2.2)).map (fun u => u.2.1)

/-- `l[c]`: the `l` entries of the scoped control units. -/
def lcVals (units : List UnitRow) (a b : ℚ) : List ℚ :=
  ((scopedOf units a b).filter (fun u => !u.2.2)).map (fun u => u.2.1)

/-- `t_stat = (l[t].mean()-l[c].mean()) /
np.sqrt(l[t].var()/t.sum() + l[c].var()/c.sum())`. -/
noncomputable def tstatOf (units : List UnitRow) (a b : ℚ) : ℝ :=
  ((meanQ (ltVals units a b) : ℝ) - (meanQ (lcVals units a b) : ℝ)) /
    Real.sqrt ((colVar (ltVals units a b) : ℝ) / ((ltVals units a b).length : ℝ) +
      (colVar (lcVals units a b) : ℝ) / ((lcVals units a b).length : ℝ))

/-- `np.median`: middle order statistic, or the average of the two middle
ones for an even count. -/
def medianQ (l : List ℚ) : ℚ :=
  if l.length % 2 = 1 then (l.insertionSort (· ≤ ·)).getD (l.length / 2) 0
  else ((l.insertionSort (· ≤ ·)).getD (l.length / 2 - 1) 0 +
        (l.insertionSort (· ≤ ·)).getD (l.length / 2) 0) / 2

/-- `med = e[e <= np.median(e[scope])].max()` (over the whole sample's
`e`, not just the scope). -/
def medOf (units : List UnitRow) (a b : ℚ) : ℚ :=
  maxList ((units.map (fun u => u.1)).filter
    (fun x => decide (x ≤ medianQ ((scopedOf units a b).map (fun u => u.1)))))

/-- `left = (e <= med) & scope`. -/
def leftOf (units : List UnitRow) (a b : ℚ) : List UnitRow :=
  (scopedOf units a b).filter (fun u => decide (u.1 ≤ medOf units a b))

/-- `right = (e > med) & scope`. -/
def rightOf (units : List UnitRow) (a b : ℚ) : List UnitRow :=
  (scopedOf units a b).filter (fun u => decide (medOf units a b < u.1))

/-- `np.min([N_left_t, N_left-N_left_t, N_right_t, N_right-N_right_t])`. -/
def cellMin (units : List UnitRow) (a b : ℚ) : ℕ :=
  ((leftOf units a b).countP (fun u => u.2.2)) ⊓
    ((leftOf units a b).countP (fun u => !u.2.2)) ⊓
    ((rightOf units a b).countP (fun u => u.2.2)) ⊓
    ((rightOf units a b).countP (fun u => !u.2.2))

/-- `_select_blocks` with explicit recursion fuel. -/
noncomputable def select_blocks (units : List UnitRow) (K : ℕ) :
    ℕ → ℚ → ℚ → Option (List ℚ)
  | 0, _, _ => none
  | fuel + 1, a, b =>
    if tstatOf units a b ≤ 1.96 then some [a, b]
    else if (leftOf units a b).length ⊓ (rightOf units a b).length ≤ K + 2 then
      some [a, b]
    else if cellMin units a b ≤ 3 then some [a, b]
    else
      match select_blocks units K fuel
              (minList ((leftOf units a b).map (fun u => u.1)))
              (medOf units a b),
            select_blocks units K fuel (medOf units a b)
              (maxList ((rightOf units a b).map (fun u => u.1))) with
      | some L, some R => some (L ++ R)
      | _, _ => none

/-- The stopping condition a terminal block `[a, b]` was kept under: the
(signed) t-statistic at most 1.96, or one of the two minimum-size
guards. -/
def stopCond (units : List UnitRow) (K : ℕ) (a b : ℚ) : Prop :=
  tstatOf units a b ≤ 1.96 ∨
    (leftOf units a b).length ⊓ (rightOf units a b).length ≤ K + 2 ∨
    cellMin units a b ≤ 3

/-- The terminal blocks of a returned boundary list: consecutive
disjoint pairs. -/
def pairsOf : List ℚ → List (ℚ × ℚ)
  | a :: b :: rest => (a, b) :: pairsOf rest
  | _ => []

lemma pairsOf_append :
    ∀ (L : List ℚ), L.length % 2 = 0 → ∀ (R : List ℚ),
      pairsOf (L ++ R) = pairsOf L ++ pairsOf R
  | [], _, R => by simp [pairsOf]
  | [_], h, _ => by simp at h
  | a :: b :: rest, h, R => by
      have h' : rest.length % 2 = 0 := by
        simp only [List.length_cons] at h
        omega
      show (a, b) :: pairsOf (rest ++ R) = ((a, b) :: pairsOf rest) ++ pairsOf R
      rw [pairsOf_append rest h' R]
      simp

lemma getD_mem {l : List ℚ} {i : ℕ} (h : i < l.length) : l.getD i 0 ∈ l := by
  rw [List.getD_eq_getElem _ _ h]
  exact List.getElem_mem h

lemma mem_of_getLast_opt {l : List ℚ} {x : ℚ} (h : x ∈ l.getLast?) : x ∈ l := by
  obtain ⟨hne, rfl⟩ := List.mem_getLast?_eq_getLast h
  exact List.getLast_mem hne

/-- The median of a non-empty list lies between any lower and upper bound
of the list. -/
lemma medianQ_bounds {l : List ℚ} (hne : l ≠ []) (lo hi : ℚ)
    (h : ∀ x ∈ l, lo ≤ x ∧ x ≤ hi) : lo ≤ medianQ l ∧ medianQ l ≤ hi := by
  have hlen : (l.insertionSort (· ≤ ·)).length = l.length :=
    l.length_insertionSort _
  have hpos : 0 < l.length := List.length_pos.mpr hne
  have hs : ∀ x ∈ l.insertionSort (· ≤ ·), lo ≤ x ∧ x ≤ hi := by
    intro x hx
    exact h x ((l.perm_insertionSort (· ≤ ·)).mem_iff.mp hx)
  rw [medianQ]
  by_cases hodd : l.length % 2 = 1
  · rw [if_pos hodd]
    have hidx : l.length / 2 < (l.insertionSort (· ≤ ·)).length := by
      rw [hlen]; omega
    exact hs _ (getD_mem hidx)
  · rw [if_neg hodd]
    have hidx1 : l.length / 2 - 1 < (l.insertionSort (· ≤ ·)).length := by
      rw [hlen]; omega
    have hidx2 : l.length / 2 < (l.insertionSort (· ≤ ·)).length := by
      rw [hlen]; omega
    obtain ⟨h1a, h1b⟩ := hs _ (getD_mem hidx1)
    obtain ⟨h2a, h2b⟩ := hs _ (getD_mem hidx2)
    constructor <;> [linarith; linarith]

lemma scoped_e_bounds {units : List UnitRow} {a b : ℚ} {u : UnitRow}
    (h : u ∈ scopedOf units a b) : a ≤ u.1 ∧ u.1 ≤ b := by
  obtain ⟨-, hc⟩ := List.mem_filter.mp h
  simp only [Bool.and_eq_true, decide_eq_true_eq] at hc
  exact hc

lemma medOf_le {units : List UnitRow} {a b : ℚ}
    (hne : scopedOf units a b ≠ []) (hab : ∀ u ∈ scopedOf units a b, u.1 ≤ b) :
    medOf units a b ≤ b := by
  have hmapne : (scopedOf units a b).map (fun u => u.1) ≠ [] := by
    simpa using hne
  -- every scoped e-value is a candidate bounded by the scoped median
  have hmedhi : medianQ ((scopedOf units a b).map (fun u => u.1)) ≤ b := by
    refine (medianQ_bounds hmapne
      (minList ((scopedOf units a b).map (fun u => u.1))) b ?_).2
    intro x hx
    refine ⟨minList_le x hx, ?_⟩
    obtain ⟨u, hu, rfl⟩ := List.mem_map.mp hx
    exact hab u hu
  -- the candidate set is non-empty: the scoped minimum qualifies
  have hcand : minList ((scopedOf units a b).map (fun u => u.1)) ∈
      (units.map (fun u => u.1)).filter
        (fun x => decide (x ≤ medianQ ((scopedOf units a b).map (fun u => u.1)))) := by
    refine List.mem_filter.mpr ⟨?_, ?_⟩
    · obtain ⟨u, hu, he⟩ := List.mem_map.mp (minList_mem hmapne)
      exact List.mem_map.mpr ⟨u, List.mem_of_mem_filter hu, he⟩
    · simp only [decide_eq_true_eq]
      exact (medianQ_bounds hmapne
        (minList ((scopedOf units a b).map (fun u => u.1))) b
        (fun x hx => ⟨minList_le x hx, by
          obtain ⟨u, hu, rfl⟩ := List.mem_map.mp hx
          exact hab u hu⟩)).1
  have hcne : (units.map (fun u => u.1)).filter
      (fun x => decide (x ≤ medianQ ((scopedOf units a b).map (fun u => u.1)))) ≠ [] := by
    intro hc
    rw [hc] at hcand
    exact absurd hcand (List.not_mem_nil _)
  obtain ⟨v, hv, he⟩ := List.mem_map.mp
    (List.mem_of_mem_filter (maxList_mem hcne))
  -- the maximum itself satisfies the filter bound
  have := List.mem_filter.mp (maxList_mem hcne)
  simp only [decide_eq_true_eq] at this
  rw [medOf]
  exact le_trans this.2 hmedhi

/-- C5 (amended): whenever `_select_blocks` returns, the returned boundary
list is non-decreasing, all boundaries stay in the initial range, the list
pairs up into terminal blocks, and every terminal block was kept under a
stopping condition: its (signed, as the code tests) t-statistic is at most
1.96, or splitting it would violate the minimum-size guard (a child with
at most K+2 units, or a treated/control-by-left/right cell with at most 3
units). -/
theorem select_blocks_spec (units : List UnitRow) (K : ℕ) :
    ∀ (fuel : ℕ) (a b : ℚ) (bs : List ℚ), a ≤ b →
      select_blocks units K fuel a b = some bs →
      bs.Chain' (· ≤ ·) ∧ (∀ x ∈ bs, a ≤ x ∧ x ≤ b) ∧
        bs.length % 2 = 0 ∧
        ∀ pr ∈ pairsOf bs, stopCond units K pr.1 pr.2 := by
  intro fuel
  induction fuel with
  | zero =>
      intro a b bs _ h
      simp [select_blocks] at h
  | succ fuel ih =>
      intro a b bs hab h
      rw [select_blocks] at h
      by_cases h1 : tstatOf units a b ≤ 1.96
      · rw [if_pos h1] at h
        obtain rfl := Option.some.inj h
        refine ⟨by simp [hab], ?_, by norm_num, ?_⟩
        · intro x hx
          rcases List.mem_cons.mp hx with rfl | hx
          · exact ⟨le_refl _, hab⟩
          · rw [List.mem_singleton.mp hx]
            exact ⟨hab, le_refl _⟩
        · intro pr hpr
          have hpr2 : pr = (a, b) := by
            have hpe : pairsOf [a, b] = [(a, b)] := rfl
            rw [hpe] at hpr
            exact List.mem_singleton.mp hpr
          rw [hpr2]
          exact Or.inl h1
      · rw [if_neg h1] at h
        by_cases h2 : (leftOf units a b).length ⊓ (rightOf units a b).length ≤ K + 2
        · rw [if_pos h2] at h
          obtain rfl := Option.some.inj h
          refine ⟨by simp [hab], ?_, by norm_num, ?_⟩
          · intro x hx
            rcases List.mem_cons.mp hx with rfl | hx
            · exact ⟨le_refl _, hab⟩
            · rw [List.mem_singleton.mp hx]
              exact ⟨hab, le_refl _⟩
          · intro pr hpr
            have hpr2 : pr = (a, b) := by
              have hpe : pairsOf [a, b] = [(a, b)] := rfl
              rw [hpe] at hpr
              exact List.mem_singleton.mp hpr
            rw [hpr2]
            exact Or.inr (Or.inl h2)
        · rw [if_neg h2] at h
          by_cases h3 : cellMin units a b ≤ 3
          · rw [if_pos h3] at h
            obtain rfl := Option.some.inj h
            refine ⟨by simp [hab], ?_, by norm_num, ?_⟩
            · intro x hx
              rcases List.mem_cons.mp hx with rfl | hx
              · exact ⟨le_refl _, hab⟩
              · rw [List.mem_singleton.mp hx]
                exact ⟨hab, le_refl _⟩
            · intro pr hpr
              have hpr2 : pr = (a, b) := by
                have hpe : pairsOf [a, b] = [(a, b)] := rfl
                rw [hpe] at hpr
                exact List.mem_singleton.mp hpr
              rw [hpr2]
              exact Or.inr (Or.inr h3)
          · rw [if_neg h3] at h
            -- the recursion case: both children must have returned
            have hLne : leftOf units a b ≠ [] := by
              intro hc
              apply h2
              rw [hc]
              simp
            have hRne : rightOf units a b ≠ [] := by
              intro hc
              apply h2
              rw [hc]
              simp
            have hLmapne : (leftOf units a b).map (fun u => u.1) ≠ [] := by
              simpa using hLne
            have hRmapne : (rightOf units a b).map (fun u => u.1) ≠ [] := by
              simpa using hRne
            -- the left minimum is a left e-value, hence ≥ a and ≤ med
            obtain ⟨uL, huL, heL⟩ := List.mem_map.mp (minList_mem hLmapne)
            have huLmed : uL.1 ≤ medOf units a b := by
              have := (List.mem_filter.mp huL).2
              simpa using this
            have huLscope : uL ∈ scopedOf units a b := List.mem_of_mem_filter huL
            -- the right maximum is a right e-value, hence > med and ≤ b
            obtain ⟨uR, huR, heR⟩ := List.mem_map.mp (maxList_mem hRmapne)
            have huRmed : medOf units a b < uR.1 := by
              have := (List.mem_filter.mp huR).2
              simpa using this
            have huRscope : uR ∈ scopedOf units a b := List.mem_of_mem_filter huR
            have hamed : minList ((leftOf units a b).map (fun u => u.1)) ≤
                medOf units a b := by
              rw [← heL]
              exact huLmed
            have hmedmax : medOf units a b ≤
                maxList ((rightOf units a b).map (fun u => u.1)) := by
              rw [← heR]
              exact le_of_lt huRmed
            have haL : a ≤ minList ((leftOf units a b).map (fun u => u.1)) := by
              rw [← heL]
              exact (scoped_e_bounds huLscope).1
            have hRb : maxList ((rightOf units a b).map (fun u => u.1)) ≤ b := by
              rw [← heR]
              exact (scoped_e_bounds huRscope).2
            have hmedb : medOf units a b ≤ b :=
              medOf_le (fun hc => hLne (by simp [leftOf, hc]))
                (fun u hu => (scoped_e_bounds hu).2)
            cases hL : select_blocks units K fuel
                (minList ((leftOf units a b).map (fun u => u.1)))
                (medOf units a b) with
            | none =>
                rw [hL] at h
                cases hR : select_blocks units K fuel (medOf units a b)
                    (maxList ((rightOf units a b).map (fun u => u.1))) with
                | none => rw [hR] at h; simp at h
                | some R => rw [hR] at h; simp at h
            | some L =>
                rw [hL] at h
                cases hR : select_blocks units K fuel (medOf units a b)
                    (maxList ((rightOf units a b).map (fun u => u.1))) with
                | none => rw [hR] at h; simp at h
                | some R =>
                    rw [hR] at h
                    obtain rfl := Option.some.inj h
                    obtain ⟨hcL, hmL, heLen, hpL⟩ := ih _ _ L hamed hL
                    obtain ⟨hcR, hmR, heRen, hpR⟩ := ih _ _ R hmedmax hR
                    refine ⟨?_, ?_, ?_, ?_⟩
                    · refine hcL.append hcR ?_
                      intro x hx y hy
                      exact le_trans (hmL x (mem_of_getLast_opt hx)).2
                        ((hmR y (List.mem_of_mem_head? hy)).1)
                    · intro x hx
                      rcases List.mem_append.mp hx with hx | hx
                      · obtain ⟨hxa, hxm⟩ := hmL x hx
                        exact ⟨le_trans haL hxa, le_trans hxm hmedb⟩
                      · obtain ⟨hxm, hxb⟩ := hmR x hx
                        exact ⟨le_trans haL (le_trans hamed hxm),
                          le_trans hxb hRb⟩
                    · rw [List.length_append]
                      omega
                    · intro pr hpr
                      rw [pairsOf_append L heLen R] at hpr
                      rcases List.mem_append.mp hpr with hpr | hpr
                      · exact hpL pr hpr
                      · exact hpR pr hpr

/-- A 16-unit sample: scores `i/20`, the lower half (scores 1/20..8/20)
and upper half each holding 4 treated units (`l` values -1, 1, -1, 1) and
4 control units (`l` values 9, 11, 9, 11). -/
def units16 : List UnitRow :=
  [(1/20, -1, true), (2/20, 1, true), (3/20, -1, true), (4/20, 1, true),
   (5/20, 9, false), (6/20, 11, false), (7/20, 9, false), (8/20, 11, false),
   (9/20, -1, true), (10/20, 1, true), (11/20, -1, true), (12/20, 1, true),
   (13/20, 9, false), (14/20, 11, false), (15/20, 9, false), (16/20, 11, false)]

lemma scoped16 : scopedOf units16 (1/20) (16/20) = units16 := by
  norm_num [scopedOf, units16, List.filter_cons]

lemma lt16 : ltVals units16 (1/20) (16/20) = [-1, 1, -1, 1, -1, 1, -1, 1] := by
  rw [ltVals, scoped16]
  rfl

lemma lc16 : lcVals units16 (1/20) (16/20) = [9, 11, 9, 11, 9, 11, 9, 11] := by
  rw [lcVals, scoped16]
  rfl

/-- The two-sample t-statistic of the 16-unit sample over its full score
range: means 0 and 10, variances 1 and 1, so `t = -10/sqrt(1/4) = -20`. -/
lemma tstat16 : tstatOf units16 (1/20) (16/20) = -20 := by
  rw [tstatOf, lt16, lc16]
  have h1 : meanQ [(-1 : ℚ), 1, -1, 1, -1, 1, -1, 1] = 0 := by norm_num [meanQ]
  have h2 : meanQ [(9 : ℚ), 11, 9, 11, 9, 11, 9, 11] = 10 := by norm_num [meanQ]
  have h3 : colVar [(-1 : ℚ), 1, -1, 1, -1, 1, -1, 1] = 1 := by
    norm_num [colVar, meanQ]
  have h4 : colVar [(9 : ℚ), 11, 9, 11, 9, 11, 9, 11] = 1 := by
    norm_num [colVar, meanQ]
  have hlen1 : ([(-1 : ℚ), 1, -1, 1, -1, 1, -1, 1]).length = 8 := rfl
  have hlen2 : ([(9 : ℚ), 11, 9, 11, 9, 11, 9, 11]).length = 8 := rfl
  rw [h1, h2, h3, h4, hlen1, hlen2]
  have hs : ((1 : ℚ) : ℝ) / ((8 : ℕ) : ℝ) + ((1 : ℚ) : ℝ) / ((8 : ℕ) : ℝ) =
      ((1 : ℝ)/2) ^ 2 := by
    push_cast
    norm_num
  rw [hs, Real.sqrt_sq (by norm_num : (0 : ℝ) ≤ 1/2)]
  push_cast
  norm_num

lemma median16 :
    medianQ ((scopedOf units16 (1/20) (16/20)).map (fun u => u.1)) = 17/40 := by
  rw [scoped16]
  norm_num [units16, medianQ, List.insertionSort, List.orderedInsert]

lemma med16 : medOf units16 (1/20) (16/20) = 8/20 := by
  rw [medOf, median16]
  norm_num [units16, maxList, List.filter_cons, max_def]

lemma left16 : leftOf units16 (1/20) (16/20) =
    [(1/20, -1, true), (2/20, 1, true), (3/20, -1, true), (4/20, 1, true),
     (5/20, 9, false), (6/20, 11, false), (7/20, 9, false),
     (8/20, 11, false)] := by
  rw [leftOf, scoped16, med16]
  norm_num [units16, List.filter_cons]

lemma right16 : rightOf units16 (1/20) (16/20) =
    [(9/20, -1, true), (10/20, 1, true), (11/20, -1, true), (12/20, 1, true),
     (13/20, 9, false), (14/20, 11, false), (15/20, 9, false),
     (16/20, 11, false)] := by
  rw [rightOf, scoped16, med16]
  norm_num [units16, List.filter_cons]

lemma minlen16 :
    (leftOf units16 (1/20) (16/20)).length ⊓
      (rightOf units16 (1/20) (16/20)).length = 8 := by
  rw [left16, right16]
  rfl

lemma cell16 : cellMin units16 (1/20) (16/20) = 4 := by
  rw [cellMin, left16, right16]
  rfl

/-- With `K = 1`, the code stops immediately on the whole range: the
(signed) t-statistic is `-20 <= 1.96`. -/
lemma sb16 : select_blocks units16 1 1 (1/20) (16/20) =
    some [1/20, 16/20] := by
  show select_blocks units16 1 (0 + 1) (1/20) (16/20) = some [1/20, 16/20]
  rw [select_blocks]
  rw [if_pos (by rw [tstat16]; norm_num :
    tstatOf units16 (1/20) (16/20) ≤ 1.96)]

/-- C5 counterexample: on the 16-unit sample with `K = 1`, the code keeps
the whole range as one terminal block because the signed t-statistic is
`-20 <= 1.96`, yet `|t| = 20 > 1.96` and splitting would violate no
minimum-size guard (both children have 8 > K+2 = 3 units and every
treated/control-by-left/right cell has 4 > 3 units) — so the claim's
`|t| <= 1.96`-or-guard disjunction fails for this terminal block. -/
theorem select_blocks_keeps_unbalanced_block :
    select_blocks units16 1 1 (1/20) (16/20) = some [1/20, 16/20] ∧
      ¬(|tstatOf units16 (1/20) (16/20)| ≤ 1.96) ∧
      ¬((leftOf units16 (1/20) (16/20)).length ⊓
          (rightOf units16 (1/20) (16/20)).length ≤ 1 + 2) ∧
      ¬(cellMin units16 (1/20) (16/20) ≤ 3) := by
  refine ⟨sb16, ?_, ?_, ?_⟩
  · rw [tstat16]
    rw [abs_of_nonpos (by norm_num : (-20 : ℝ) ≤ 0)]
    norm_num
  · rw [minlen16]
    norm_num
  · rw [cell16]
    norm_num

/-- C5 witness input: the 16-unit sample, `K = 1`, fuel 1, full range: the
returned boundaries are non-decreasing, the last boundary stays in range,
and the single terminal block satisfies a stopping condition. -/
theorem select_blocks_spec_works :
    ([(1 : ℚ)/20, 16/20]).Chain' (· ≤ ·) ∧
      ((1 : ℚ)/20 ≤ 16/20 ∧ (16 : ℚ)/20 ≤ 16/20) ∧
      ([(1 : ℚ)/20, 16/20]).length % 2 = 0 ∧
      stopCond units16 1 (1/20) (16/20) := by
  have h := select_blocks_spec units16 1 1 (1/20) (16/20) [1/20, 16/20]
    (by norm_num) sb16
  exact ⟨h.1, h.2.1 (16/20) (by simp), h.2.2.1,
    h.2.2.2 (1/20, 16/20) (by simp [pairsOf])⟩

end Causal
